import Mathlib

/-!
Shallow embedding of the page-frame allocator in `src/page.rs` of the
rust-riscv-os repository.

Modelling conventions:
* `usize` values are `Nat`.  Subtraction is the one operation the source
  performs that can wrap on `usize` (`num_pages - pages` in `alloc`,
  `ptr - ALLOC_START` in `dealloc`), so it is modelled by `wsub` with an
  explicit `% 2 ^ 64`.  Additions and multiplications of addresses are kept
  exact; none of the claims depends on them wrapping.
* Memory from `HEAP_START` upward is a total function `Nat → Nat`:
  index `i` holds the byte at address `HEAP_START + i`.  The first
  `num_pages` indices are the descriptor table; larger indices are the page
  payload area and whatever memory lies beyond the heap (the source reads
  and writes such bytes through raw pointers when its index arithmetic
  exceeds the table, so the model keeps them addressable).
* `assert!` failures (the panic/abort path) are explicit result
  constructors (`Except.error` for `alloc`, the fatal constructors of
  `DeallocResult` for `dealloc`).
* The `while` loop of `dealloc` is modelled with explicit fuel; `none`
  (out of fuel) is a model artifact that never occurs for walks that stay
  within a well-formed run.
-/

namespace PageAlloc

/-- One machine word of address space: `usize` on the rv64 target. -/
def W : Nat := 2 ^ 64

/-- Wrapping `usize` subtraction `a - b` (two's complement, 64 bits). -/
def wsub (a b : Nat) : Nat := (a + (W - b % W)) % W

/-- The constant `PAGE_ORDER` from the source. -/
def PAGE_ORDER : Nat := 12

/-- The constant `PAGE_SIZE = 1 << 12` from the source. -/
def PAGE_SIZE : Nat := 1 <<< 12

/-- Bit 0 of a descriptor byte: the frame is part of a live allocation. -/
def TAKEN : Nat := 1 <<< 0

/-- Bit 1 of a descriptor byte: the frame ends its allocation run. -/
def LAST : Nat := 1 <<< 1

/-- The value `TAKEN | LAST`, written by `Page::alloc_last`. -/
def TAKEN_LAST : Nat := TAKEN ||| LAST

/-- Source `Page::is_taken`: `flags.contains(TAKEN)`, i.e. `d & TAKEN == TAKEN`. -/
def is_taken (d : Nat) : Bool := d &&& TAKEN == TAKEN

/-- Source `Page::is_last`: `flags.contains(LAST)`. -/
def is_last (d : Nat) : Bool := d &&& LAST == LAST

/-- Source `Page::is_free`: the opposite of `is_taken`. -/
def is_free (d : Nat) : Bool := !(is_taken d)

/-- The allocator's global state: the linker symbols `HEAP_START` and
`HEAP_SIZE`, the static `ALLOC_START`, and the memory bytes from
`HEAP_START` upward. -/
structure Heap where
  heapStart : Nat
  heapSize : Nat
  allocStart : Nat
  mem : Nat → Nat

/-- The quantity `num_pages = HEAP_SIZE / PAGE_SIZE`, recomputed by each operation. -/
def Heap.numPages (h : Heap) : Nat := h.heapSize / PAGE_SIZE

/-- Write byte `v` at descriptor/memory index `i`. -/
def upd (mem : Nat → Nat) (i v : Nat) : Nat → Nat :=
  fun j => if j = i then v else mem j

/-- The source's `align_val(val, order)`: `(val + o) & !o` with
`o = (1 << order) - 1`.  On `usize` the addition wraps and the mask `!o`
clears the low `order` bits, i.e. it rounds `(val + o) mod 2^64` down to a
multiple of `2^order`. -/
def align_val (val order : Nat) : Nat :=
  ((val + ((1 <<< order) - 1)) % W) / (1 <<< order) * (1 <<< order)

/-- The clearing loop of `init`: `for i in 0..count { (*ptr.add(i)).clear() }`. -/
def clearLoop (mem : Nat → Nat) : Nat → (Nat → Nat)
  | 0 => mem
  | c + 1 => upd (clearLoop mem c) c 0

/-- Source `init()`: zero all `num_pages` descriptors and set
`ALLOC_START = align_val(HEAP_START + num_pages * size_of::<Page>(), PAGE_ORDER)`;
`size_of::<Page>()` is 1 byte. -/
def init (h : Heap) : Heap :=
  { h with
    mem := clearLoop h.mem h.numPages
    allocStart := align_val (h.heapStart + h.numPages * 1) PAGE_ORDER }

/-- The inner loop of `alloc`: scan `count` descriptors from index `i`,
breaking (result `false`) at the first taken one. -/
def range_all_free (mem : Nat → Nat) : Nat → Nat → Bool
  | _, 0 => true
  | i, c + 1 => if is_taken (mem i) then false else range_all_free mem (i + 1) c

/-- The outer loop of `alloc`: try `count` candidate start indices from `i`;
a candidate is found when descriptor `i` is free and the window of `pages`
descriptors from `i` holds no taken one. -/
def alloc_scan (mem : Nat → Nat) (pages : Nat) : Nat → Nat → Option Nat
  | _, 0 => none
  | i, c + 1 =>
    if is_free (mem i) && range_all_free mem i pages then some i
    else alloc_scan mem pages (i + 1) c

/-- The marking loop of `alloc`: `for k in i..i + pages - 1 { alloc() }`,
setting `count` descriptors from `i` to `TAKEN`. -/
def mark_loop : (Nat → Nat) → Nat → Nat → (Nat → Nat)
  | mem, _, 0 => mem
  | mem, i, c + 1 => mark_loop (upd mem i TAKEN) (i + 1) c

/-- The successful-allocation write-back: `TAKEN` on the first `pages - 1`
descriptors of the run, `TAKEN | LAST` on the last. -/
def allocMark (h : Heap) (i pages : Nat) : Heap :=
  { h with mem := upd (mark_loop h.mem i (pages - 1)) (i + pages - 1) TAKEN_LAST }

/-- Source `alloc(pages)`.  `Except.error ()` is the `assert!(pages > 0)` panic;
`none` is the `null_mut()` sentinel.  The scan bound is the `usize`
expression `num_pages - pages`, which wraps when `pages > num_pages`. -/
def alloc (h : Heap) (pages : Nat) : Except Unit (Option Nat × Heap) :=
  if pages = 0 then Except.error ()
  else
    match alloc_scan h.mem pages 0 (wsub h.numPages pages) with
    | some i => Except.ok (some (h.allocStart + PAGE_SIZE * i), allocMark h i pages)
    | none => Except.ok (none, h)

/-- One store of the zeroing loop of `zalloc`: a doubleword store of 0
zeroes the 8 bytes at indices `[i, i + 8)`. -/
def store_zero_word (mem : Nat → Nat) (i : Nat) : Nat → Nat :=
  fun j => if i ≤ j ∧ j < i + 8 then 0 else mem j

/-- The zeroing loop of `zalloc`: `count` doubleword stores of 0 starting
at byte index `i`. -/
def zero_loop : (Nat → Nat) → Nat → Nat → (Nat → Nat)
  | mem, _, 0 => mem
  | mem, i, c + 1 => zero_loop (store_zero_word mem i) (i + 8) c

/-- Source `zalloc(pages)`: call `alloc(pages)`; on a non-null result zero
`(PAGE_SIZE * pages) / 8` doublewords starting at the returned address. -/
def zalloc (h : Heap) (pages : Nat) : Except Unit (Option Nat × Heap) :=
  match alloc h pages with
  | Except.error e => Except.error e
  | Except.ok (none, h1) => Except.ok (none, h1)
  | Except.ok (some ret, h1) =>
    Except.ok (some ret,
      { h1 with mem := zero_loop h1.mem (ret - h1.heapStart) ((PAGE_SIZE * pages) / 8) })

/-- Outcome of `dealloc`: normal return, or one of the three `assert!`
panics, or fuel exhaustion of the modelled `while` loop. -/
inductive DeallocResult where
  | ok (h : Heap)
  | nullFatal
  | rangeFatal
  | doubleFreeFatal
  | outOfFuel
deriving Nonempty

/-- The clearing walk of `dealloc`:
`while (*p).is_taken() && !(*p).is_last() { (*p).clear(); p = p.add(1) }`,
returning the memory and the index at which the loop stopped. -/
def dealloc_walk : (Nat → Nat) → Nat → Nat → Option ((Nat → Nat) × Nat)
  | _, _, 0 => none
  | mem, i, f + 1 =>
    if is_taken (mem i) && !(is_last (mem i)) then dealloc_walk (upd mem i 0) (i + 1) f
    else some (mem, i)

/-- The `let addr` binding of `dealloc`:
`HEAP_START + (ptr - ALLOC_START) / PAGE_SIZE`, with the wrapping `usize`
subtraction made explicit. -/
def deallocAddr (h : Heap) (ptr : Nat) : Nat :=
  h.heapStart + wsub ptr h.allocStart / PAGE_SIZE

/-- Source `dealloc(ptr)`: assert `ptr` non-null, compute the descriptor address
`addr = HEAP_START + (ptr - ALLOC_START) / PAGE_SIZE`, assert it lies inside
`[HEAP_START, HEAP_START + HEAP_SIZE)`, walk-and-clear until the loop
stops, then assert the stopping descriptor has `LAST` and clear it. -/
def dealloc (h : Heap) (ptr fuel : Nat) : DeallocResult :=
  if ptr = 0 then DeallocResult.nullFatal
  else if h.heapStart ≤ deallocAddr h ptr ∧ deallocAddr h ptr < h.heapStart + h.heapSize then
    match dealloc_walk h.mem (deallocAddr h ptr - h.heapStart) fuel with
    | none => DeallocResult.outOfFuel
    | some (mem1, i) =>
      if is_last (mem1 i) then DeallocResult.ok { h with mem := upd mem1 i 0 }
      else DeallocResult.doubleFreeFatal
  else DeallocResult.rangeFatal

/-! ### Concrete heaps used by counterexamples and witnesses -/

/-- A freshly initialised 2-frame heap: `HEAP_START = 0x1000`,
`HEAP_SIZE = 2 * PAGE_SIZE`, all memory zero. -/
def exC1 : Heap := init ⟨4096, 8192, 0, fun _ => 0⟩

/-- A 4-frame heap (`ALLOC_START = 0x2000` as `init` computes it) whose
frame 0 carries a single-frame live run and whose other descriptors are
free. -/
def exFirstFit : Heap := ⟨4096, 16384, 8192, fun j => if j = 0 then 3 else 0⟩

/-- A freshly initialised 1-frame heap (`HEAP_SIZE = PAGE_SIZE`), used to
exercise the underflowing scan bound of `alloc(pages)` for `pages > N`. -/
def exUnder : Heap := init ⟨4096, 4096, 0, fun _ => 0⟩

/-- A freshly initialised 4097-frame heap.  Its descriptor table is 4097
bytes, so `ALLOC_START` sits two pages above `HEAP_START` while frame
indices still reach `N - 1`. -/
def exOver : Heap := init ⟨4096, 4097 * 4096, 0, fun _ => 0⟩

/-- A freshly initialised 1-frame heap whose out-of-table byte at index 1
reads as `TAKEN|LAST`; `init` clears only the one table byte. -/
def exBeyond : Heap := init ⟨4096, 4096, 0, fun j => if j = 1 then 3 else 0⟩

/-- State `exBeyond` after `dealloc` has cleared the out-of-table byte 1. -/
def exBeyondAfter : Heap := { exBeyond with mem := upd exBeyond.mem 1 0 }

/-- A 4-frame heap holding one live 3-frame run on frames 0..2
(`TAKEN, TAKEN, TAKEN|LAST`), frame 3 free. -/
def exMidRun : Heap := ⟨4096, 16384, 8192, fun j => if j < 2 then 1 else if j = 2 then 3 else 0⟩

/-- A 2-frame heap whose free descriptor byte 0 holds the nonzero value 2
(`LAST` without `TAKEN`): free for the scan, but not the all-zero byte a
round trip would restore. -/
def exNZ : Heap := ⟨4096, 8192, 8192, fun j => if j = 0 then 2 else 0⟩

/-- State `exNZ` after a successful `alloc(1)` at frame 0. -/
def exNZ1 : Heap := allocMark exNZ 0 1

/-- State `exNZ1` after `dealloc` of the returned pointer. -/
def exNZ2 : Heap := { exNZ1 with mem := upd exNZ1.mem 0 0 }

/-- A degenerate heap with `HEAP_SIZE = 0`: `N = 0` and
`ALLOC_START = HEAP_START`, so every frame a wrapped scan can mark lies
outside the (empty) table and `zalloc`'s zeroing lands on the very bytes
the scan reads as descriptors. -/
def exOv0 : Heap := init ⟨4096, 0, 0, fun _ => 0⟩

/-- State `exOv0` after `zalloc(1)`: the run is marked at index 0 and the
returned page — which starts at `ALLOC_START = HEAP_START` — is zeroed,
wiping the very descriptor byte that records the run. -/
def exOv1 : Heap :=
  { allocMark exOv0 0 1 with mem := zero_loop (allocMark exOv0 0 1).mem 0 512 }

/-- State `exOv1` after a second `alloc(1)`, which re-marks the same frame 0. -/
def exOv2 : Heap := allocMark exOv1 0 1

/-- A freshly initialised 4-frame heap, start of the double-free scenario. -/
def exDF0 : Heap := init ⟨4096, 16384, 0, fun _ => 0⟩

/-- State `exDF0` after a successful `alloc(1)` at frame 0. -/
def exDF1 : Heap := allocMark exDF0 0 1

/-- State `exDF1` after the first `dealloc` of the returned pointer. -/
def exDF2 : Heap := { exDF1 with mem := upd exDF1.mem 0 0 }

/-! ### Pointwise characterisations of the loops -/

theorem upd_eq (mem : Nat → Nat) (i v j : Nat) :
    upd mem i v j = if j = i then v else mem j := rfl

theorem clearLoop_eq (mem : Nat → Nat) :
    ∀ c j, clearLoop mem c j = if j < c then 0 else mem j := by
  intro c
  induction c with
  | zero => intro j; simp [clearLoop]
  | succ c ih =>
    intro j
    simp only [clearLoop, upd, ih]
    by_cases h1 : j = c
    · subst h1
      simp
    · by_cases h2 : j < c
      · have h3 : j < c + 1 := by omega
        simp [h1, h2, h3]
      · have h3 : ¬ j < c + 1 := by omega
        simp [h1, h2, h3]

theorem mark_loop_eq :
    ∀ c mem i j, mark_loop mem i c j = if i ≤ j ∧ j < i + c then TAKEN else mem j := by
  intro c
  induction c with
  | zero =>
    intro mem i j
    have hx : ¬(i ≤ j ∧ j < i + 0) := by omega
    rw [if_neg hx]
    rfl
  | succ c ih =>
    intro mem i j
    simp only [mark_loop, ih, upd]
    by_cases h1 : j = i <;> by_cases h2 : i + 1 ≤ j ∧ j < i + 1 + c <;>
      by_cases h3 : i ≤ j ∧ j < i + (c + 1) <;> simp [h1, h2, h3] <;> omega

theorem zero_loop_eq :
    ∀ c mem i j, zero_loop mem i c j = if i ≤ j ∧ j < i + 8 * c then 0 else mem j := by
  intro c
  induction c with
  | zero =>
    intro mem i j
    have hx : ¬(i ≤ j ∧ j < i + 8 * 0) := by omega
    rw [if_neg hx]
    rfl
  | succ c ih =>
    intro mem i j
    simp only [zero_loop, ih, store_zero_word]
    by_cases h1 : i + 8 ≤ j ∧ j < i + 8 + 8 * c <;> by_cases h2 : i ≤ j ∧ j < i + 8 <;>
      by_cases h3 : i ≤ j ∧ j < i + 8 * (c + 1) <;> simp [h1, h2, h3] <;> omega

theorem allocMark_mem (h : Heap) (i pages j : Nat) :
    (allocMark h i pages).mem j =
      if j = i + pages - 1 then TAKEN_LAST
      else if i ≤ j ∧ j < i + (pages - 1) then TAKEN
      else h.mem j := by
  simp only [allocMark, upd, mark_loop_eq]

theorem allocMark_heapStart (h : Heap) (i pages : Nat) :
    (allocMark h i pages).heapStart = h.heapStart := rfl

theorem allocMark_heapSize (h : Heap) (i pages : Nat) :
    (allocMark h i pages).heapSize = h.heapSize := rfl

theorem allocMark_allocStart (h : Heap) (i pages : Nat) :
    (allocMark h i pages).allocStart = h.allocStart := rfl

/-! ### The scan loop: soundness and the first-fit characterisation -/

theorem range_all_free_iff (mem : Nat → Nat) :
    ∀ c i, range_all_free mem i c = true ↔ ∀ j, j < c → is_free (mem (i + j)) = true := by
  intro c
  induction c with
  | zero => intro i; simp [range_all_free]
  | succ c ih =>
    intro i
    simp only [range_all_free]
    by_cases ht : is_taken (mem i) = true
    · rw [if_pos ht]
      constructor
      · intro hf; exact absurd hf (by simp)
      · intro hall
        have h0 := hall 0 (Nat.succ_pos c)
        rw [Nat.add_zero] at h0
        simp [is_free, ht] at h0
    · rw [if_neg ht, ih]
      constructor
      · intro hall j hj
        cases j with
        | zero =>
          rw [Nat.add_zero]
          simp [is_free, ht]
        | succ j =>
          have hs := hall j (by omega)
          have he : i + 1 + j = i + (j + 1) := by omega
          rw [he] at hs
          exact hs
      · intro hall j hj
        have hs := hall (j + 1) (by omega)
        have he : i + 1 + j = i + (j + 1) := by omega
        rw [he]
        exact hs

/-- The candidate test of the outer loop, as the source performs it. -/
def window_ok (mem : Nat → Nat) (pages i : Nat) : Bool :=
  is_free (mem i) && range_all_free mem i pages

theorem window_ok_iff (mem : Nat → Nat) (pages i : Nat) (hp : 1 ≤ pages) :
    window_ok mem pages i = true ↔ ∀ j, j < pages → is_free (mem (i + j)) = true := by
  simp only [window_ok, Bool.and_eq_true, range_all_free_iff]
  constructor
  · exact fun h j hj => h.2 j hj
  · intro h
    exact ⟨by simpa using h 0 hp, fun j hj => h j hj⟩

theorem alloc_scan_unfold (mem : Nat → Nat) (pages s c : Nat) :
    alloc_scan mem pages s (c + 1) =
      if window_ok mem pages s = true then some s
      else alloc_scan mem pages (s + 1) c := rfl

theorem alloc_scan_some (mem : Nat → Nat) (pages : Nat) :
    ∀ c s i, alloc_scan mem pages s c = some i →
      s ≤ i ∧ i < s + c ∧ window_ok mem pages i = true := by
  intro c
  induction c with
  | zero => intro s i h; simp [alloc_scan] at h
  | succ c ih =>
    intro s i h
    rw [alloc_scan_unfold] at h
    by_cases hw : window_ok mem pages s = true
    · rw [if_pos hw] at h
      cases h
      exact ⟨Nat.le_refl _, by omega, hw⟩
    · rw [if_neg hw] at h
      obtain ⟨h1, h2, h3⟩ := ih (s + 1) i h
      exact ⟨by omega, by omega, h3⟩

theorem alloc_scan_finds (mem : Nat → Nat) (pages : Nat) :
    ∀ c s i, s ≤ i → i < s + c → window_ok mem pages i = true →
      (∀ x, s ≤ x → x < i → window_ok mem pages x = false) →
      alloc_scan mem pages s c = some i := by
  intro c
  induction c with
  | zero => intro s i h1 h2 _ _; omega
  | succ c ih =>
    intro s i h1 h2 hw hmin
    rw [alloc_scan_unfold]
    rcases Nat.eq_or_lt_of_le h1 with rfl | hlt
    · rw [if_pos hw]
    · have hs : ¬ window_ok mem pages s = true := by
        rw [hmin s (Nat.le_refl _) hlt]
        simp
      rw [if_neg hs]
      exact ih (s + 1) i (by omega) (by omega) hw (fun x hx1 hx2 => hmin x (by omega) hx2)

/-! ### The dealloc walk -/

theorem dealloc_walk_some :
    ∀ f mem s mem1 t, dealloc_walk mem s f = some (mem1, t) →
      s ≤ t ∧ (∀ j, s ≤ j → j < t → mem1 j = 0) ∧
        (∀ j, ¬(s ≤ j ∧ j < t) → mem1 j = mem j) := by
  intro f
  induction f with
  | zero => intro mem s mem1 t h; simp [dealloc_walk] at h
  | succ f ih =>
    intro mem s mem1 t h
    simp only [dealloc_walk] at h
    by_cases hc : (is_taken (mem s) && !(is_last (mem s))) = true
    · rw [if_pos hc] at h
      obtain ⟨h1, h2, h3⟩ := ih _ _ _ _ h
      refine ⟨by omega, ?_, ?_⟩
      · intro j hj1 hj2
        by_cases hjs : j = s
        · have h4 := h3 j (by omega)
          rw [h4, upd_eq]
          simp [hjs]
        · exact h2 j (by omega) hj2
      · intro j hj
        have h4 := h3 j (by omega)
        rw [h4, upd_eq]
        have hne : j ≠ s := by omega
        simp [hne]
    · rw [if_neg hc] at h
      cases h
      exact ⟨Nat.le_refl _, fun j h1 h2 => by omega, fun j _ => rfl⟩

theorem dealloc_walk_run :
    ∀ c mem s f, (∀ j, j < c → mem (s + j) = TAKEN) → mem (s + c) = TAKEN_LAST →
      c < f →
      ∃ mem1, dealloc_walk mem s f = some (mem1, s + c) ∧
        ∀ j, mem1 j = if s ≤ j ∧ j < s + c then 0 else mem j := by
  intro c
  induction c with
  | zero =>
    intro mem s f hpre hl hf
    match f, hf with
    | f + 1, _ =>
      refine ⟨mem, ?_, ?_⟩
      · have h3 : mem s = TAKEN_LAST := by simpa using hl
        have hc : ¬ (is_taken (mem s) && !(is_last (mem s))) = true := by
          rw [h3]; decide
        simp only [dealloc_walk]
        rw [if_neg hc, Nat.add_zero]
      · intro j
        have hx : ¬(s ≤ j ∧ j < s + 0) := by omega
        rw [if_neg hx]
  | succ c ih =>
    intro mem s f hpre hl hf
    match f, hf with
    | f + 1, hf =>
      have h0 : mem s = TAKEN := by simpa using hpre 0 (Nat.succ_pos c)
      have hc : (is_taken (mem s) && !(is_last (mem s))) = true := by
        rw [h0]; decide
      have hstep : dealloc_walk mem s (f + 1) = dealloc_walk (upd mem s 0) (s + 1) f := by
        simp only [dealloc_walk]
        rw [if_pos hc]
      have hpre2 : ∀ j, j < c → upd mem s 0 (s + 1 + j) = TAKEN := by
        intro j hj
        rw [upd_eq]
        have hne : s + 1 + j ≠ s := by omega
        rw [if_neg hne]
        have he : s + 1 + j = s + (j + 1) := by omega
        rw [he]
        exact hpre (j + 1) (by omega)
      have hl2 : upd mem s 0 (s + 1 + c) = TAKEN_LAST := by
        rw [upd_eq]
        have hne : s + 1 + c ≠ s := by omega
        rw [if_neg hne]
        have he : s + 1 + c = s + (c + 1) := by omega
        rw [he]
        exact hl
      obtain ⟨mem1, hwalk, hmem⟩ := ih (upd mem s 0) (s + 1) f hpre2 hl2 (by omega)
      refine ⟨mem1, ?_, ?_⟩
      · rw [hstep, hwalk]
        have he : s + 1 + c = s + (c + 1) := by omega
        rw [he]
      · intro j
        rw [hmem j, upd_eq]
        by_cases h1 : s + 1 ≤ j ∧ j < s + 1 + c <;> by_cases h2 : j = s <;>
          by_cases h3 : s ≤ j ∧ j < s + (c + 1) <;> simp [h1, h2, h3] <;> omega

/-! ### Arithmetic and unfolding helpers -/

theorem wsub_eq_sub (a b : Nat) (hba : b ≤ a) (ha : a < W) : wsub a b = a - b := by
  unfold wsub
  rw [Nat.mod_eq_of_lt (show b < W by omega)]
  have h1 : a + (W - b) = W + (a - b) := by omega
  rw [h1, Nat.add_mod_left, Nat.mod_eq_of_lt (by omega)]

theorem numPages_le_heapSize (h : Heap) : h.numPages ≤ h.heapSize :=
  Nat.div_le_self _ _

theorem alloc_eq_of_scan_some (h : Heap) (pages i : Nat) (hp : pages ≠ 0)
    (hs : alloc_scan h.mem pages 0 (wsub h.numPages pages) = some i) :
    alloc h pages = Except.ok (some (h.allocStart + PAGE_SIZE * i), allocMark h i pages) := by
  unfold alloc
  rw [if_neg hp, hs]

theorem alloc_ok_some_inv (h : Heap) (pages p : Nat) (h1 : Heap)
    (ha : alloc h pages = Except.ok (some p, h1)) :
    ∃ i, alloc_scan h.mem pages 0 (wsub h.numPages pages) = some i ∧
      p = h.allocStart + PAGE_SIZE * i ∧ h1 = allocMark h i pages ∧ pages ≠ 0 := by
  by_cases hp : pages = 0
  · unfold alloc at ha
    rw [if_pos hp] at ha
    exact absurd ha (by simp)
  · unfold alloc at ha
    rw [if_neg hp] at ha
    cases hscan : alloc_scan h.mem pages 0 (wsub h.numPages pages) with
    | some i =>
      rw [hscan] at ha
      simp only [Except.ok.injEq, Prod.mk.injEq, Option.some.injEq] at ha
      exact ⟨i, rfl, ha.1.symm, ha.2.symm, hp⟩
    | none =>
      rw [hscan] at ha
      simp at ha

theorem dealloc_eq_of_walk (h : Heap) (ptr fuel : Nat) (mem1 : Nat → Nat) (t : Nat)
    (hp : ptr ≠ 0)
    (hr : h.heapStart ≤ deallocAddr h ptr ∧ deallocAddr h ptr < h.heapStart + h.heapSize)
    (hw : dealloc_walk h.mem (deallocAddr h ptr - h.heapStart) fuel = some (mem1, t)) :
    dealloc h ptr fuel =
      if is_last (mem1 t) = true then DeallocResult.ok { h with mem := upd mem1 t 0 }
      else DeallocResult.doubleFreeFatal := by
  unfold dealloc
  rw [if_neg hp, if_pos hr, hw]

theorem dealloc_ok_inv (h : Heap) (ptr fuel : Nat) (h2 : Heap)
    (hd : dealloc h ptr fuel = DeallocResult.ok h2) :
    ptr ≠ 0 ∧ h.heapStart ≤ deallocAddr h ptr ∧ deallocAddr h ptr < h.heapStart + h.heapSize ∧
      ∃ mem1 t, dealloc_walk h.mem (deallocAddr h ptr - h.heapStart) fuel = some (mem1, t) ∧
        is_last (mem1 t) = true ∧ h2 = { h with mem := upd mem1 t 0 } := by
  by_cases hp : ptr = 0
  · unfold dealloc at hd
    rw [if_pos hp] at hd
    exact absurd hd (by simp)
  by_cases hr : h.heapStart ≤ deallocAddr h ptr ∧ deallocAddr h ptr < h.heapStart + h.heapSize
  · refine ⟨hp, hr.1, hr.2, ?_⟩
    cases hw : dealloc_walk h.mem (deallocAddr h ptr - h.heapStart) fuel with
    | none =>
      unfold dealloc at hd
      rw [if_neg hp, if_pos hr, hw] at hd
      exact absurd hd (by simp)
    | some pr =>
      obtain ⟨mem1, t⟩ := pr
      rw [dealloc_eq_of_walk h ptr fuel mem1 t hp hr hw] at hd
      by_cases hl : is_last (mem1 t) = true
      · rw [if_pos hl] at hd
        simp only [DeallocResult.ok.injEq] at hd
        exact ⟨mem1, t, rfl, hl, hd.symm⟩
      · rw [if_neg hl] at hd
        exact absurd hd (by simp)
  · unfold dealloc at hd
    rw [if_neg hp, if_neg hr] at hd
    exact absurd hd (by simp)

/-! ### Claim C1 -/

/-- C1, counterexample.  On a freshly initialised 2-frame heap a window of
2 consecutive FREE descriptors starts at index `0 = N - pages`, yet
`alloc(2)` returns the null sentinel with the heap unchanged: the scan
bound `0..num_pages - pages` excludes the starting index `N - pages`, so
the claimed success at `i = N - pages` does not happen. -/
theorem alloc_excludes_last_window :
    exC1.numPages = 2 ∧ (∀ j, j < 2 → is_free (exC1.mem (0 + j)) = true) ∧
      alloc exC1 2 = Except.ok (none, exC1) :=
  ⟨rfl, by decide, rfl⟩

/-- C1, amended: `alloc(pages)` performs a first-fit linear scan over the
half-open range of starting indices `i ∈ [0, N - pages)` (the source
excludes `i = N - pages`), so whenever a window of `pages` consecutive
FREE descriptors starts at some `i < N - pages` and every smaller start
has a TAKEN descriptor in its window, `alloc` succeeds exactly at `i`. -/
theorem alloc_first_fit (h : Heap) (pages i : Nat)
    (hp : 1 ≤ pages) (hW : h.heapSize < W)
    (hi : i < h.numPages - pages)
    (hwin : ∀ j, j < pages → is_free (h.mem (i + j)) = true)
    (hmin : ∀ x, x < i → ∃ j, j < pages ∧ is_taken (h.mem (x + j)) = true) :
    alloc h pages = Except.ok (some (h.allocStart + PAGE_SIZE * i), allocMark h i pages) := by
  have hpN : pages ≤ h.numPages := by omega
  have hNW : h.numPages < W := by
    have h1 := numPages_le_heapSize h
    omega
  have hbound : wsub h.numPages pages = h.numPages - pages := wsub_eq_sub _ _ hpN hNW
  have hwb : window_ok h.mem pages i = true := (window_ok_iff h.mem pages i hp).2 hwin
  have hblocked : ∀ x, x < i → window_ok h.mem pages x = false := by
    intro x hx
    obtain ⟨j, hj, ht⟩ := hmin x hx
    by_cases hwx : window_ok h.mem pages x = true
    · have hfree := (window_ok_iff h.mem pages x hp).1 hwx j hj
      rw [is_free, ht] at hfree
      simp at hfree
    · rw [Bool.not_eq_true] at hwx
      exact hwx
  have hscan : alloc_scan h.mem pages 0 (wsub h.numPages pages) = some i := by
    rw [hbound]
    exact alloc_scan_finds h.mem pages (h.numPages - pages) 0 i (Nat.zero_le i) (by omega)
      hwb (fun x _ hx => hblocked x hx)
  exact alloc_eq_of_scan_some h pages i (by omega) hscan

/-- C1, witness for the amended theorem: on `exFirstFit` (frame 0 taken,
frames 1..3 free, N = 4), `alloc(2)` succeeds at the earliest in-bound
free start `i = 1`. -/
theorem alloc_first_fit_w :
    alloc exFirstFit 2 =
      Except.ok (some (exFirstFit.allocStart + PAGE_SIZE * 1), allocMark exFirstFit 1 2) :=
  alloc_first_fit exFirstFit 2 1 (by decide) (by decide) (by decide) (by decide)
    (by decide)

/-! ### Claim C4 -/

/-- C4: whenever the scan of `alloc(pages)` succeeds at first-fit index
`i`, `alloc` sets exactly `TAKEN` on descriptors `i..i+pages-2`, sets
`TAKEN|LAST` on descriptor `i+pages-1`, leaves every other descriptor
byte unchanged, and returns `ALLOC_START + i * PAGE_SIZE`, which is a
multiple of `PAGE_SIZE` (given the page-aligned `ALLOC_START` that `init`
establishes) and at least `ALLOC_START`. -/
theorem alloc_success_marks_and_addr (h : Heap) (pages i : Nat)
    (hp : 1 ≤ pages) (hal : h.allocStart % PAGE_SIZE = 0)
    (hs : alloc_scan h.mem pages 0 (wsub h.numPages pages) = some i) :
    alloc h pages = Except.ok (some (h.allocStart + PAGE_SIZE * i), allocMark h i pages) ∧
    (∀ j, i ≤ j → j < i + pages - 1 → (allocMark h i pages).mem j = TAKEN) ∧
    (allocMark h i pages).mem (i + pages - 1) = TAKEN_LAST ∧
    (∀ j, j < i ∨ i + pages ≤ j → (allocMark h i pages).mem j = h.mem j) ∧
    (h.allocStart + PAGE_SIZE * i) % PAGE_SIZE = 0 ∧
    h.allocStart ≤ h.allocStart + PAGE_SIZE * i := by
  refine ⟨alloc_eq_of_scan_some h pages i (by omega) hs, ?_, ?_, ?_, ?_, Nat.le_add_right _ _⟩
  · intro j hj1 hj2
    rw [allocMark_mem]
    have hne : j ≠ i + pages - 1 := by omega
    have hin : i ≤ j ∧ j < i + (pages - 1) := by omega
    rw [if_neg hne, if_pos hin]
  · rw [allocMark_mem]
    simp
  · intro j hj
    rw [allocMark_mem]
    have hne : j ≠ i + pages - 1 := by omega
    have hout : ¬(i ≤ j ∧ j < i + (pages - 1)) := by omega
    rw [if_neg hne, if_neg hout]
  · rw [Nat.add_mul_mod_self_left]
    exact hal

/-- C4, witness: on `exFirstFit`, `alloc(2)` succeeds at index 1 and the
theorem's conclusions hold there. -/
theorem alloc_success_marks_and_addr_w :
    alloc exFirstFit 2 =
      Except.ok (some (exFirstFit.allocStart + PAGE_SIZE * 1), allocMark exFirstFit 1 2) ∧
    (∀ j, 1 ≤ j → j < 1 + 2 - 1 → (allocMark exFirstFit 1 2).mem j = TAKEN) ∧
    (allocMark exFirstFit 1 2).mem (1 + 2 - 1) = TAKEN_LAST ∧
    (∀ j, j < 1 ∨ 1 + 2 ≤ j → (allocMark exFirstFit 1 2).mem j = exFirstFit.mem j) ∧
    (exFirstFit.allocStart + PAGE_SIZE * 1) % PAGE_SIZE = 0 ∧
    exFirstFit.allocStart ≤ exFirstFit.allocStart + PAGE_SIZE * 1 :=
  alloc_success_marks_and_addr exFirstFit 2 1 (by decide) (by decide) (by decide)

/-! ### Claim C2 -/

/-- C2: evaluation of `alloc` at the failing input `pages = 2 > N = 1`.
The `usize` scan bound `num_pages - pages` underflows to `2^64 - 1`, the
scan reads the out-of-table byte at index 1 (zero here), and `alloc`
returns a non-null pointer after marking descriptor byte 0 and the
out-of-table byte 1 — instead of the claimed sentinel null return with
every descriptor byte unchanged. -/
theorem alloc_underflow_scribbles :
    exUnder.numPages = 1 ∧ wsub exUnder.numPages 2 = W - 1 ∧
    alloc exUnder 2 = Except.ok (some 8192, allocMark exUnder 0 2) ∧
    (allocMark exUnder 0 2).mem 0 = TAKEN ∧ (allocMark exUnder 0 2).mem 1 = TAKEN_LAST ∧
    exUnder.mem 0 = 0 :=
  ⟨rfl, by decide, rfl, by decide, by decide, by decide⟩

/-! ### Claim C9 -/

/-- C9: for a page-aligned `HEAP_START` and a `PAGE_SIZE`-multiple
`HEAP_SIZE` (here 4097 frames) there is a call sequence after `init` —
a single legal `alloc(4096)` — that succeeds and returns `p` with
`p + pages * PAGE_SIZE > HEAP_START + HEAP_SIZE`: `ALLOC_START` sits above
the descriptor table while frame indices still range up to `N - 1`, so the
allocated frames run past the end of the heap region. -/
theorem alloc_can_overrun_heap_end :
    ∃ hs hsz pages p h1,
      hs % PAGE_SIZE = 0 ∧ hsz % PAGE_SIZE = 0 ∧
      alloc (init ⟨hs, hsz, 0, fun _ => 0⟩) pages = Except.ok (some p, h1) ∧
      hs + hsz < p + PAGE_SIZE * pages := by
  have hmem : ∀ j, exOver.mem j = 0 := by
    intro j
    show clearLoop (fun _ => 0) (Heap.numPages ⟨4096, 4097 * 4096, 0, fun _ => 0⟩) j = 0
    rw [clearLoop_eq]
    split <;> rfl
  have hwb : window_ok exOver.mem 4096 0 = true := by
    refine (window_ok_iff exOver.mem 4096 0 (by omega)).2 ?_
    intro j hj
    rw [hmem]
    decide
  have hscan : alloc_scan exOver.mem 4096 0 (wsub exOver.numPages 4096) = some 0 := by
    have hbd : wsub exOver.numPages 4096 = 1 := by decide
    rw [hbd]
    exact alloc_scan_finds exOver.mem 4096 1 0 0 (Nat.le_refl _) (by omega) hwb
      (fun x hx1 hx2 => by omega)
  have heq := alloc_eq_of_scan_some exOver 4096 0 (by decide) hscan
  exact ⟨4096, 4097 * 4096, 4096, 12288, allocMark exOver 0 4096,
    by decide, by decide, heq, by decide⟩

/-! ### Claim C8 -/

/-- C8, counterexample.  `exBeyond` is a 1-frame heap; the page-aligned
pointer `0x3000 = ALLOC_START + 1 * PAGE_SIZE` has computed descriptor
index `1 ≥ N`, yet `dealloc` does not abort: the range assertion compares
the descriptor address against `HEAP_START + HEAP_SIZE` (a byte bound, not
an entry bound), the walk reads the out-of-table byte 1, finds
`TAKEN|LAST` there, clears it and returns normally — mutating memory. -/
theorem dealloc_beyond_table_not_fatal :
    exBeyond.numPages ≤ wsub 12288 exBeyond.allocStart / PAGE_SIZE ∧
    dealloc exBeyond 12288 2 = DeallocResult.ok exBeyondAfter ∧
    exBeyond.mem 1 = 3 ∧ exBeyondAfter.mem 1 = 0 :=
  ⟨by decide, rfl, by decide, by decide⟩

/-- C8, amended: `alloc(0)` aborts via the panic path, `dealloc(null)`
aborts, and `dealloc(p)` aborts for every pointer whose computed
descriptor address `HEAP_START + (p - ALLOC_START) / PAGE_SIZE` falls at
or beyond `HEAP_START + HEAP_SIZE` (the check the source actually makes —
a byte bound, so pointers with computed index in `[N, HEAP_SIZE)` are not
caught). -/
theorem precondition_fatal_paths (h : Heap) (p fuel : Nat)
    (hp : p ≠ 0)
    (hout : h.heapStart + h.heapSize ≤ deallocAddr h p) :
    alloc h 0 = Except.error () ∧ dealloc h 0 fuel = DeallocResult.nullFatal ∧
      dealloc h p fuel = DeallocResult.rangeFatal := by
  refine ⟨?_, ?_, ?_⟩
  · unfold alloc
    rw [if_pos rfl]
  · unfold dealloc
    rw [if_pos rfl]
  · unfold dealloc
    rw [if_neg hp, if_neg (show ¬(h.heapStart ≤ deallocAddr h p ∧
      deallocAddr h p < h.heapStart + h.heapSize) by omega)]

/-- C8, witness: the fatal paths on `exFirstFit`, with a pointer 16384
pages above `ALLOC_START` whose descriptor address is out of range. -/
theorem precondition_fatal_paths_w :
    alloc exFirstFit 0 = Except.error () ∧
    dealloc exFirstFit 0 3 = DeallocResult.nullFatal ∧
    dealloc exFirstFit 67117056 3 = DeallocResult.rangeFatal :=
  precondition_fatal_paths exFirstFit 67117056 3 (by decide) (by decide)

/-! ### Claim C10 -/

/-- C10: for a live run on frames `i..i+k-1` (`k ≥ 2`) and any offset
`1 ≤ d ≤ k-1`, `dealloc(ALLOC_START + (i+d) * PAGE_SIZE)` — a pointer into
the middle of the run that `alloc` never returned — completes without any
fatal path, clears exactly descriptors `i+d..i+k-1`, and leaves
descriptors `i..i+d-1` TAKEN with no LAST-terminated end. -/
theorem dealloc_mid_run (h : Heap) (i k d fuel : Nat)
    (hk : 2 ≤ k) (hd1 : 1 ≤ d) (hdk : d ≤ k - 1)
    (hrun1 : ∀ j, j < k - 1 → h.mem (i + j) = TAKEN)
    (hrun2 : h.mem (i + (k - 1)) = TAKEN_LAST)
    (hbound : i + k ≤ h.numPages)
    (hpos : 0 < h.allocStart)
    (hptrW : h.allocStart + PAGE_SIZE * (i + d) < W)
    (hfuel : k ≤ fuel) :
    ∃ h2, dealloc h (h.allocStart + PAGE_SIZE * (i + d)) fuel = DeallocResult.ok h2 ∧
      (∀ j, i + d ≤ j → j < i + k → h2.mem j = 0) ∧
      (∀ j, j < i + d ∨ i + k ≤ j → h2.mem j = h.mem j) ∧
      (∀ j, j < d → h2.mem (i + j) = TAKEN ∧ is_last (h2.mem (i + j)) = false) := by
  have hp0 : h.allocStart + PAGE_SIZE * (i + d) ≠ 0 := by
    have h1 := Nat.le_add_right h.allocStart (PAGE_SIZE * (i + d))
    omega
  have haddr : deallocAddr h (h.allocStart + PAGE_SIZE * (i + d)) = h.heapStart + (i + d) := by
    unfold deallocAddr
    rw [wsub_eq_sub _ _ (Nat.le_add_right _ _) hptrW, Nat.add_sub_cancel_left,
      Nat.mul_div_cancel_left _ (show 0 < PAGE_SIZE by decide)]
  have hrange : h.heapStart ≤ deallocAddr h (h.allocStart + PAGE_SIZE * (i + d)) ∧
      deallocAddr h (h.allocStart + PAGE_SIZE * (i + d)) < h.heapStart + h.heapSize := by
    rw [haddr]
    have h2 := numPages_le_heapSize h
    exact ⟨by omega, by omega⟩
  have hidx : deallocAddr h (h.allocStart + PAGE_SIZE * (i + d)) - h.heapStart = i + d := by
    rw [haddr]
    omega
  have hwalkpre : ∀ j, j < k - 1 - d → h.mem (i + d + j) = TAKEN := by
    intro j hj
    have he : i + d + j = i + (d + j) := by omega
    rw [he]
    exact hrun1 (d + j) (by omega)
  have hwalklast : h.mem (i + d + (k - 1 - d)) = TAKEN_LAST := by
    have he : i + d + (k - 1 - d) = i + (k - 1) := by omega
    rw [he]
    exact hrun2
  obtain ⟨mem1, hwalk, hmem1⟩ :=
    dealloc_walk_run (k - 1 - d) h.mem (i + d) fuel hwalkpre hwalklast (by omega)
  have hlast : is_last (mem1 (i + d + (k - 1 - d))) = true := by
    rw [hmem1]
    have hx : ¬(i + d ≤ i + d + (k - 1 - d) ∧ i + d + (k - 1 - d) < i + d + (k - 1 - d)) := by
      omega
    rw [if_neg hx, hwalklast]
    decide
  have heq := dealloc_eq_of_walk h (h.allocStart + PAGE_SIZE * (i + d)) fuel mem1
    (i + d + (k - 1 - d)) hp0 hrange (by rw [hidx]; exact hwalk)
  rw [if_pos hlast] at heq
  refine ⟨_, heq, ?_, ?_, ?_⟩
  · intro j hj1 hj2
    show upd mem1 (i + d + (k - 1 - d)) 0 j = 0
    rw [upd_eq]
    by_cases hjt : j = i + d + (k - 1 - d)
    · rw [if_pos hjt]
    · rw [if_neg hjt, hmem1]
      have hin : i + d ≤ j ∧ j < i + d + (k - 1 - d) := by omega
      rw [if_pos hin]
  · intro j hj
    show upd mem1 (i + d + (k - 1 - d)) 0 j = h.mem j
    rw [upd_eq]
    have hjt : j ≠ i + d + (k - 1 - d) := by omega
    rw [if_neg hjt, hmem1]
    have hout : ¬(i + d ≤ j ∧ j < i + d + (k - 1 - d)) := by omega
    rw [if_neg hout]
  · intro j hj
    have hmemj : upd mem1 (i + d + (k - 1 - d)) 0 (i + j) = h.mem (i + j) := by
      rw [upd_eq]
      have hjt : i + j ≠ i + d + (k - 1 - d) := by omega
      rw [if_neg hjt, hmem1]
      have hout : ¬(i + d ≤ i + j ∧ i + j < i + d + (k - 1 - d)) := by omega
      rw [if_neg hout]
    have hv : h.mem (i + j) = TAKEN := hrun1 j (by omega)
    constructor
    · show upd mem1 (i + d + (k - 1 - d)) 0 (i + j) = TAKEN
      rw [hmemj, hv]
    · show is_last (upd mem1 (i + d + (k - 1 - d)) 0 (i + j)) = false
      rw [hmemj, hv]
      decide

/-- C10, witness: on `exMidRun` (one live run on frames 0..2), freeing the
mid-run pointer `ALLOC_START + 1 * PAGE_SIZE` succeeds, clears frames 1..2
and strands frame 0 as TAKEN without LAST. -/
theorem dealloc_mid_run_w :
    ∃ h2, dealloc exMidRun (exMidRun.allocStart + PAGE_SIZE * (0 + 1)) 3 = DeallocResult.ok h2 ∧
      (∀ j, 0 + 1 ≤ j → j < 0 + 3 → h2.mem j = 0) ∧
      (∀ j, j < 0 + 1 ∨ 0 + 3 ≤ j → h2.mem j = exMidRun.mem j) ∧
      (∀ j, j < 1 → h2.mem (0 + j) = TAKEN ∧ is_last (h2.mem (0 + j)) = false) :=
  dealloc_mid_run exMidRun 0 3 1 3 (by decide) (by decide) (by decide) (by decide)
    (by decide) (by decide) (by decide) (by decide) (by decide)

/-! ### Claim C3 -/

/-- C3: for a pointer `p` returned by a successful `alloc`, once a
`dealloc(p)` has returned normally, a second `dealloc(p)` with no
intervening operation hits the double-free assertion: the walk starts on a
descriptor already cleared to `TAKEN=0`, the loop exits at once, and the
`is_last` assertion fails. -/
theorem dealloc_double_free (h0 h1 h2 : Heap) (pages p fuel1 fuel2 : Nat)
    (ha : alloc h0 pages = Except.ok (some p, h1))
    (hd : dealloc h1 p fuel1 = DeallocResult.ok h2)
    (hf : 0 < fuel2) :
    dealloc h2 p fuel2 = DeallocResult.doubleFreeFatal := by
  obtain ⟨hp0, hr1, hr2, mem1, t, hwalk, hlast, hh2⟩ := dealloc_ok_inv h1 p fuel1 h2 hd
  obtain ⟨hs_le, hclr, hout⟩ :=
    dealloc_walk_some fuel1 h1.mem (deallocAddr h1 p - h1.heapStart) mem1 t hwalk
  subst hh2
  have hm2s : upd mem1 t 0 (deallocAddr h1 p - h1.heapStart) = 0 := by
    rw [upd_eq]
    by_cases hts : deallocAddr h1 p - h1.heapStart = t
    · rw [if_pos hts]
    · rw [if_neg hts]
      exact hclr _ (Nat.le_refl _) (by omega)
  obtain ⟨f, rfl⟩ : ∃ f, fuel2 = f + 1 := ⟨fuel2 - 1, by omega⟩
  have hcond : ¬(is_taken (upd mem1 t 0 (deallocAddr h1 p - h1.heapStart)) &&
      !(is_last (upd mem1 t 0 (deallocAddr h1 p - h1.heapStart)))) = true := by
    rw [hm2s]
    decide
  have hwalk2 : dealloc_walk (upd mem1 t 0) (deallocAddr h1 p - h1.heapStart) (f + 1) =
      some (upd mem1 t 0, deallocAddr h1 p - h1.heapStart) := by
    simp only [dealloc_walk]
    rw [if_neg hcond]
  have hlast2 : ¬ is_last (upd mem1 t 0 (deallocAddr h1 p - h1.heapStart)) = true := by
    rw [hm2s]
    decide
  have heq := dealloc_eq_of_walk { h1 with mem := upd mem1 t 0 } p (f + 1) (upd mem1 t 0)
    (deallocAddr h1 p - h1.heapStart) hp0 ⟨hr1, hr2⟩ hwalk2
  rw [if_neg hlast2] at heq
  exact heq

/-- C3, witness: on a fresh 4-frame heap, `alloc(1)` returns `0x2000`;
after one successful `dealloc`, a second `dealloc(0x2000)` is fatal. -/
theorem dealloc_double_free_w :
    dealloc exDF2 8192 1 = DeallocResult.doubleFreeFatal :=
  dealloc_double_free exDF0 exDF1 exDF2 1 8192 4 1 rfl rfl (by decide)

/-! ### Claim C5 -/

/-- C5, counterexample.  The claim quantifies over every descriptor state.
On `exNZ` the free byte 0 holds the nonzero value 2; `alloc(1)` succeeds
there and `dealloc` of the returned pointer clears the byte to 0, so the
round trip restores the run to all-zero but does not yield the descriptor
state that held before the alloc. -/
theorem roundtrip_not_identity :
    alloc exNZ 1 = Except.ok (some 8192, exNZ1) ∧
    dealloc exNZ1 8192 2 = DeallocResult.ok exNZ2 ∧
    exNZ2.mem 0 = 0 ∧ exNZ.mem 0 = 2 :=
  ⟨rfl, rfl, by decide, by decide⟩

/-- C5, amended: if `alloc(pages)` succeeds at frame `i` and the window's
descriptor bytes were all zero beforehand (as they are in every state
reachable from `init`), then an immediate `dealloc` of the returned
pointer restores descriptors `[i, i+pages)` to all-zero and returns the
descriptor state that held before the alloc, pointwise. -/
theorem alloc_dealloc_roundtrip (h : Heap) (pages i fuel : Nat)
    (hp : 1 ≤ pages) (hW : h.heapSize < W) (hpN : pages ≤ h.numPages)
    (hs : alloc_scan h.mem pages 0 (wsub h.numPages pages) = some i)
    (hz : ∀ j, j < pages → h.mem (i + j) = 0)
    (hpos : 0 < h.allocStart)
    (hptrW : h.allocStart + PAGE_SIZE * i < W)
    (hfuel : pages ≤ fuel) :
    alloc h pages = Except.ok (some (h.allocStart + PAGE_SIZE * i), allocMark h i pages) ∧
    ∃ h2, dealloc (allocMark h i pages) (h.allocStart + PAGE_SIZE * i) fuel =
        DeallocResult.ok h2 ∧
      (∀ j, i ≤ j → j < i + pages → h2.mem j = 0) ∧
      (∀ j, h2.mem j = h.mem j) := by
  have hNW : h.numPages < W := by
    have h1 := numPages_le_heapSize h
    omega
  have hb : wsub h.numPages pages = h.numPages - pages := wsub_eq_sub _ _ hpN hNW
  obtain ⟨-, hi_lt, -⟩ := alloc_scan_some h.mem pages (wsub h.numPages pages) 0 i hs
  rw [hb] at hi_lt
  have hik : i + pages ≤ h.numPages := by omega
  have hpre : ∀ j, j < pages - 1 → (allocMark h i pages).mem (i + j) = TAKEN := by
    intro j hj
    rw [allocMark_mem]
    rw [if_neg (by omega : ¬ i + j = i + pages - 1),
      if_pos (by omega : i ≤ i + j ∧ i + j < i + (pages - 1))]
  have hlastm : (allocMark h i pages).mem (i + (pages - 1)) = TAKEN_LAST := by
    rw [allocMark_mem]
    rw [if_pos (by omega : i + (pages - 1) = i + pages - 1)]
  obtain ⟨mem2, hwalk, hmem2⟩ :=
    dealloc_walk_run (pages - 1) (allocMark h i pages).mem i fuel hpre hlastm (by omega)
  have hp0 : h.allocStart + PAGE_SIZE * i ≠ 0 := by
    have h1 := Nat.le_add_right h.allocStart (PAGE_SIZE * i)
    omega
  have haddr : deallocAddr (allocMark h i pages) (h.allocStart + PAGE_SIZE * i) =
      h.heapStart + i := by
    unfold deallocAddr
    rw [allocMark_heapStart, allocMark_allocStart,
      wsub_eq_sub _ _ (Nat.le_add_right _ _) hptrW, Nat.add_sub_cancel_left,
      Nat.mul_div_cancel_left _ (show 0 < PAGE_SIZE by decide)]
  have hrange : (allocMark h i pages).heapStart ≤
      deallocAddr (allocMark h i pages) (h.allocStart + PAGE_SIZE * i) ∧
      deallocAddr (allocMark h i pages) (h.allocStart + PAGE_SIZE * i) <
        (allocMark h i pages).heapStart + (allocMark h i pages).heapSize := by
    rw [allocMark_heapStart, allocMark_heapSize, haddr]
    have h2 := numPages_le_heapSize h
    exact ⟨by omega, by omega⟩
  have hidx : deallocAddr (allocMark h i pages) (h.allocStart + PAGE_SIZE * i) -
      (allocMark h i pages).heapStart = i := by
    rw [allocMark_heapStart, haddr]
    omega
  have heq := dealloc_eq_of_walk (allocMark h i pages) (h.allocStart + PAGE_SIZE * i) fuel
    mem2 (i + (pages - 1)) hp0 hrange (by rw [hidx]; exact hwalk)
  have hlast2 : is_last (mem2 (i + (pages - 1))) = true := by
    rw [hmem2]
    rw [if_neg (by omega : ¬(i ≤ i + (pages - 1) ∧ i + (pages - 1) < i + (pages - 1))),
      hlastm]
    decide
  rw [if_pos hlast2] at heq
  refine ⟨alloc_eq_of_scan_some h pages i (by omega) hs, _, heq, ?_, ?_⟩
  · intro j hj1 hj2
    show upd mem2 (i + (pages - 1)) 0 j = 0
    rw [upd_eq]
    by_cases hjt : j = i + (pages - 1)
    · rw [if_pos hjt]
    · rw [if_neg hjt, hmem2]
      rw [if_pos (by omega : i ≤ j ∧ j < i + (pages - 1))]
  · intro j
    show upd mem2 (i + (pages - 1)) 0 j = h.mem j
    rw [upd_eq]
    by_cases hjt : j = i + (pages - 1)
    · rw [if_pos hjt]
      have hz2 := hz (pages - 1) (by omega)
      rw [hjt, hz2]
    · rw [if_neg hjt, hmem2]
      by_cases hin : i ≤ j ∧ j < i + (pages - 1)
      · rw [if_pos hin]
        have hz3 := hz (j - i) (by omega)
        rw [show i + (j - i) = j from by omega] at hz3
        rw [hz3]
      · rw [if_neg hin, allocMark_mem]
        rw [if_neg (by omega : ¬ j = i + pages - 1), if_neg hin]

/-- C5, witness for the amended theorem: on the fresh 4-frame heap
`exDF0`, `alloc(2)` at frame 0 followed by `dealloc(0x2000)` restores the
all-zero descriptor state. -/
theorem alloc_dealloc_roundtrip_w :
    alloc exDF0 2 = Except.ok (some (exDF0.allocStart + PAGE_SIZE * 0), allocMark exDF0 0 2) ∧
    ∃ h2, dealloc (allocMark exDF0 0 2) (exDF0.allocStart + PAGE_SIZE * 0) 2 =
        DeallocResult.ok h2 ∧
      (∀ j, 0 ≤ j → j < 0 + 2 → h2.mem j = 0) ∧
      (∀ j, h2.mem j = exDF0.mem j) :=
  alloc_dealloc_roundtrip exDF0 2 0 2 (by decide) (by decide) (by decide) (by decide)
    (by decide) (by decide) (by decide) (by decide)

/-! ### Claim C7 -/

/-- C7: `zalloc(pages)` forwards the result of `alloc(pages)` — the panic
on `pages = 0`, the null sentinel, or the identical non-null pointer `p` —
and in the non-null case every one of the `pages * PAGE_SIZE` bytes of the
returned region is zero afterwards, regardless of its previous contents,
while every descriptor-table byte is exactly as `alloc` left it (the
zeroed region lies entirely above the table when `ALLOC_START` sits above
it). -/
theorem zalloc_zeroes_region (h : Heap) (pages : Nat)
    (htab : h.heapStart + h.numPages ≤ h.allocStart) :
    (∀ e, alloc h pages = Except.error e → zalloc h pages = Except.error e) ∧
    (∀ h1, alloc h pages = Except.ok (none, h1) → zalloc h pages = Except.ok (none, h1)) ∧
    (∀ p h1, alloc h pages = Except.ok (some p, h1) →
      ∃ h2, zalloc h pages = Except.ok (some p, h2) ∧
        (∀ a, p ≤ a → a < p + PAGE_SIZE * pages → h2.mem (a - h.heapStart) = 0) ∧
        (∀ j, j < h.numPages → h2.mem j = h1.mem j)) := by
  refine ⟨?_, ?_, ?_⟩
  · intro e he
    unfold zalloc
    rw [he]
  · intro h1 hnone
    unfold zalloc
    rw [hnone]
  · intro p h1 hsome
    obtain ⟨i, hscan, hpe, hh1, hpnz⟩ := alloc_ok_some_inv h pages p h1 hsome
    have hps : h.heapStart ≤ p := by omega
    have hc8 : 8 * ((PAGE_SIZE * pages) / 8) = PAGE_SIZE * pages :=
      Nat.mul_div_cancel' (Dvd.dvd.mul_right (by decide) pages)
    subst hh1
    refine ⟨{ allocMark h i pages with
      mem := zero_loop (allocMark h i pages).mem (p - (allocMark h i pages).heapStart)
        ((PAGE_SIZE * pages) / 8) }, ?_, ?_, ?_⟩
    · unfold zalloc
      rw [hsome]
    · intro a ha1 ha2
      show zero_loop (allocMark h i pages).mem (p - (allocMark h i pages).heapStart)
          ((PAGE_SIZE * pages) / 8) (a - h.heapStart) = 0
      rw [allocMark_heapStart, zero_loop_eq]
      rw [if_pos (by omega : p - h.heapStart ≤ a - h.heapStart ∧
        a - h.heapStart < p - h.heapStart + 8 * (PAGE_SIZE * pages / 8))]
    · intro j hj
      show zero_loop (allocMark h i pages).mem (p - (allocMark h i pages).heapStart)
          ((PAGE_SIZE * pages) / 8) j = (allocMark h i pages).mem j
      rw [allocMark_heapStart, zero_loop_eq]
      rw [if_neg (by omega : ¬(p - h.heapStart ≤ j ∧
        j < p - h.heapStart + 8 * (PAGE_SIZE * pages / 8)))]

/-- C7, witness: on the fresh 4-frame heap `exDF0`, `zalloc(1)` returns
the pointer `alloc(1)` returns, its page reads all-zero, and the
descriptor table matches what `alloc` wrote. -/
theorem zalloc_zeroes_region_w :
    ∃ h2, zalloc exDF0 1 = Except.ok (some 8192, h2) ∧
      (∀ a, 8192 ≤ a → a < 8192 + PAGE_SIZE * 1 → h2.mem (a - exDF0.heapStart) = 0) ∧
      (∀ j, j < exDF0.numPages → h2.mem j = (allocMark exDF0 0 1).mem j) :=
  (zalloc_zeroes_region exDF0 1 (by decide)).2.2 8192 (allocMark exDF0 0 1) rfl

/-! ### Claim C6 -/

set_option maxRecDepth 100000

/-- C6: evaluation of the failing call sequence.  On the degenerate
zero-frame heap (`HEAP_SIZE = 0`, a `PAGE_SIZE` multiple) the underflowed
scan bound lets `zalloc(1)` succeed at frame 0 and return `0x1000`, but
its zeroing pass wipes the very byte the scan uses as descriptor 0
(`TAKEN|LAST` becomes 0), so a second `alloc(1)` — with the first
allocation still live — returns the same pointer `0x1000`: two live
allocations whose 4096-byte intervals coincide rather than being
disjoint. -/
theorem zalloc_then_alloc_same_pointer :
    zalloc exOv0 1 = Except.ok (some 4096, exOv1) ∧
    alloc exOv1 1 = Except.ok (some 4096, exOv2) ∧
    (allocMark exOv0 0 1).mem 0 = TAKEN_LAST ∧ exOv1.mem 0 = 0 ∧
    ¬(4096 + PAGE_SIZE * 1 ≤ 4096 ∨ 4096 + PAGE_SIZE * 1 ≤ 4096) :=
  ⟨rfl, rfl, by decide, by decide, by decide⟩

end PageAlloc
